import Mathlib

/-!
Shallow embedding of the stock-service ingest pipeline
(trogers1052/stock-service), covering:

  * the decimal parser used for textual numeric fields
    (shopspring/decimal `NewFromString`, modelled over `ℚ`);
  * `PositionsConsumer.processMessage` / `convertPositionData`
    (src/internal/kafka/watchlist_consumer.go);
  * `DB.ReplaceAllPositions` (src/internal/database/positions.go),
    modelled as one SQL transaction with rollback-on-error;
  * `WatchlistConsumer.processMessage` / `handleWatchlistUpdated` /
    `handleSymbolAdded` (src/internal/kafka/watchlist_consumer.go);
  * `DB.UpsertStockBasic` (the `INSERT ... ON CONFLICT (symbol) DO UPDATE`
    with the placeholder-name CASE);
  * the two consumer `Start` loops.  With a non-empty `GroupID`, kafka-go's
    `Reader.ReadMessage` queues the offset of every message it returns for
    commit (CommitInterval is set, so commits are asynchronous but happen
    regardless of how processing went); the loops log processing errors and
    continue with the next message.

Store operations can fail; failures are injected through explicit boolean
oracles so that error-disposition behaviour is provable.  Decimals are
modelled as exact rationals (`ℚ`); `shopspring` division rounds to 16
decimal places, a distinction none of the verified properties depends on.
-/

namespace StockService

/-! ## Decimal parser (shopspring/decimal `NewFromString`) -/

/-- Numeric value of a list of ASCII digit characters. -/
def natOfDigits (cs : List Char) : Nat :=
  cs.foldl (fun a c => a * 10 + (c.toNat - 48)) 0

/-- All characters are ASCII digits and there is at least one. -/
def allDigits (cs : List Char) : Bool :=
  !cs.isEmpty && cs.all Char.isDigit

/-- Split a character list on elements satisfying `p` (separators removed). -/
def splitOnPred (p : Char → Bool) (cs : List Char) : List (List Char) :=
  cs.splitOnP p

/-- Strip an optional leading sign, returning `(negative, rest)`. -/
def stripSign : List Char → Bool × List Char
  | '-' :: r => (true, r)
  | '+' :: r => (false, r)
  | r => (false, r)

/-- Parse the mantissa part (optional sign, digits, at most one `.`),
mirroring `decimal.NewFromString`'s handling of the part before `e`/`E`:
the string is split on `.`, the two digit groups are concatenated into one
integer and the fraction length becomes a negative power of ten. -/
def parseMantissa (cs : List Char) : Option ℚ :=
  let (neg, rest) := stripSign cs
  let signed : ℚ → ℚ := fun q => if neg then -q else q
  match splitOnPred (fun c => c == '.') rest with
  | [ip] =>
      if allDigits ip then some (signed (natOfDigits ip)) else none
  | [ip, fp] =>
      if allDigits (ip ++ fp) || (ip.isEmpty && allDigits fp)
          || (fp.isEmpty && allDigits ip) then
        some (signed ((natOfDigits (ip ++ fp) : ℚ) / (10 : ℚ) ^ fp.length))
      else none
  | _ => none

/-- Parse an exponent (optional sign, non-empty digits) as an integer. -/
def parseExpInt (cs : List Char) : Option ℤ :=
  let (neg, rest) := stripSign cs
  if allDigits rest then
    some (if neg then -(natOfDigits rest : ℤ) else (natOfDigits rest : ℤ))
  else none

/-- `decimal.NewFromString`: parse a textual fixed-point number into an
arbitrary-precision decimal, here an exact rational.  Returns `none` on
parse failure (the Go function returns an error). -/
def decimalNewFromString (s : String) : Option ℚ :=
  match splitOnPred (fun c => c == 'e' || c == 'E') s.data with
  | [m] => parseMantissa m
  | [m, e] => do
      let mv ← parseMantissa m
      let ev ← parseExpInt e
      pure (mv * (10 : ℚ) ^ ev)
  | _ => none

/-! ## Positions: wire records and domain model
(src/internal/models, src/internal/kafka/watchlist_consumer.go) -/

/-- `models.PositionData`: one raw position in a snapshot; every numeric
field is textual. -/
structure PositionData where
  symbol : String
  quantity : String
  averageBuyPrice : String
  equity : String
  percentChange : String
  equityChange : String
  updatedAt : String
  deriving DecidableEq, Repr

/-- `models.PositionsEventData`: positions plus account scalars. -/
structure PositionsEventData where
  positions : List PositionData
  buyingPower : String
  cash : String
  totalEquity : String
  deriving DecidableEq, Repr

/-- `models.PositionsEvent`: the decoded Kafka envelope. -/
structure PositionsEvent where
  eventType : String
  source : String
  timestamp : String
  data : PositionsEventData
  deriving DecidableEq, Repr

/-- `models.Position` restricted to the fields the ingest pipeline writes
(the columns of `ReplaceAllPositions`'s INSERT).  `entryDate` is an
abstract clock value; the consumer stamps it with the receive time. -/
structure Position where
  symbol : String
  quantity : ℚ
  entryPrice : ℚ
  entryDate : Nat
  currentPrice : ℚ
  unrealizedPnlPct : ℚ
  daysHeld : Nat
  deriving DecidableEq, Repr

/-- `PositionsConsumer.convertPositionData`: parse `quantity` and
`average_buy_price` (failure fails the whole position), parse `equity`
and `percent_change` with zero fallback, and compute
`current_price = equity / quantity` when quantity is nonzero (the Go
`currentPrice` variable stays at its zero value otherwise). -/
def convertPositionData (pd : PositionData) (now : Nat) : Option Position :=
  match decimalNewFromString pd.quantity with
  | none => none
  | some quantity =>
    match decimalNewFromString pd.averageBuyPrice with
    | none => none
    | some entryPrice =>
      let equity := (decimalNewFromString pd.equity).getD 0
      let percentChange := (decimalNewFromString pd.percentChange).getD 0
      let currentPrice := if quantity ≠ 0 then equity / quantity else 0
      some { symbol := pd.symbol
             quantity := quantity
             entryPrice := entryPrice
             entryDate := now
             currentPrice := currentPrice
             unrealizedPnlPct := percentChange
             daysHeld := 0 }

/-- The positions table: the rows currently stored. -/
abbrev PositionsTable := List Position

/-- Failure injection for the `ReplaceAllPositions` transaction: whether
`Begin`, the `DELETE`, the i-th row `INSERT`, and `Commit` succeed. -/
structure ReplaceOracle where
  beginOk : Bool
  deleteOk : Bool
  insertOk : Nat → Bool
  commitOk : Bool

/-- An oracle on which every store operation succeeds. -/
def allOkReplace : ReplaceOracle :=
  { beginOk := true, deleteOk := true, insertOk := fun _ => true,
    commitOk := true }

/-- The insert loop of `ReplaceAllPositions`: rows are inserted one by one
into the transaction-local table; a failing insert aborts the loop. -/
def insertAll (ok : Nat → Bool) : List Position → Nat → Option (List Position)
  | [], _ => some []
  | p :: ps, i =>
      if ok i then (insertAll ok ps (i + 1)).map (p :: ·) else none

/-- `DB.ReplaceAllPositions`: one SQL transaction that deletes every row
and re-inserts the given positions; `defer tx.Rollback()` means any
failure (begin, delete, a row insert, commit) leaves the stored table as
it was.  Returns the table after the call and whether it succeeded. -/
def replaceAllPositions (table : PositionsTable) (ps : List Position)
    (o : ReplaceOracle) : PositionsTable × Bool :=
  if !o.beginOk then (table, false)
  else if !o.deleteOk then (table, false)
  else
    match insertAll o.insertOk ps 0 with
    | none => (table, false)
    | some rows => if o.commitOk then (rows, true) else (table, false)

/-- `PositionsConsumer.processMessage` after JSON decoding: ignore
non-snapshot events, convert each raw position (skipping rows that fail
to convert), then replace all positions.  Returns the table after the
message and whether processing succeeded. -/
def processPositionsMessage (ev : PositionsEvent) (now : Nat)
    (table : PositionsTable) (o : ReplaceOracle) : PositionsTable × Bool :=
  if ev.eventType ≠ "POSITIONS_SNAPSHOT" then (table, true)
  else
    let positions := ev.data.positions.filterMap
      (fun pd => convertPositionData pd now)
    replaceAllPositions table positions o

/-- One message as seen by the positions consumer loop: the decoded
event, the receive-time clock, and the store-failure oracle in force. -/
structure PositionsMsg where
  event : PositionsEvent
  now : Nat
  oracle : ReplaceOracle

/-- `PositionsConsumer.Start`: read a message (kafka-go's `ReadMessage`
with a consumer group queues the offset of every message it returns for
commit), process it, log any processing error, and continue with the next
message.  Returns the final table and the number of offsets committed. -/
def positionsConsumerStart (msgs : List PositionsMsg)
    (table : PositionsTable) : PositionsTable × Nat :=
  msgs.foldl
    (fun acc m =>
      ((processPositionsMessage m.event m.now acc.1 m.oracle).1, acc.2 + 1))
    (table, 0)

/-- The (symbol, quantity, entry_price) tuples successfully parsed from a
snapshot's `positions[]`: rows whose `quantity` or `average_buy_price`
fail to parse are excluded.  Written from the spec's description of the
parsed set, for comparison with what the code stores. -/
def parsedTuples (ev : PositionsEvent) : List (String × ℚ × ℚ) :=
  ev.data.positions.filterMap fun pd =>
    match decimalNewFromString pd.quantity,
          decimalNewFromString pd.averageBuyPrice with
    | some q, some p => some (pd.symbol, q, p)
    | _, _ => none

/-- Projection of a stored row to its (symbol, quantity, entry_price)
tuple. -/
def positionTuple (p : Position) : String × ℚ × ℚ :=
  (p.symbol, p.quantity, p.entryPrice)

/-! ## Watchlist: wire records, stocks table, consumer
(src/internal/kafka/watchlist_consumer.go, `DB.UpsertStockBasic`) -/

/-- Go's `strings.ToUpper` restricted to the ASCII letters that stock
symbols consist of, as a character-wise map. -/
def toUpperString (s : String) : String := ⟨s.data.map Char.toUpper⟩

/-- `WatchlistStock`: stock details in a `WATCHLIST_UPDATED` event.  The
struct has no sector or industry field. -/
structure WatchlistStock where
  symbol : String
  name : String
  instrumentURL : String
  addedAt : String
  deriving DecidableEq, Repr

/-- `WatchlistEventData`: the payload shared by the watchlist event
variants.  There is no sector or industry field; unknown JSON fields are
dropped by decoding. -/
structure WatchlistEventData where
  addedSymbols : List String
  removedSymbols : List String
  allSymbols : List String
  totalCount : Nat
  stocks : List WatchlistStock
  symbol : String
  name : String
  deriving DecidableEq, Repr

/-- `WatchlistEvent`: the decoded Kafka envelope. -/
structure WatchlistEvent where
  eventType : String
  source : String
  timestamp : String
  data : WatchlistEventData
  deriving DecidableEq, Repr

/-- The columns of a `stocks` row that `UpsertStockBasic` can touch or
that the claims mention.  A plain insert leaves sector and industry at
their empty defaults; `UpsertStockBasic` never writes them. -/
structure StockRow where
  name : String
  sector : String
  industry : String
  deriving DecidableEq, Repr

/-- The stocks table: rows keyed by symbol (the primary key). -/
abbrev StocksTable := List (String × StockRow)

/-- Look up the row for a symbol. -/
def stocksFind : StocksTable → String → Option StockRow
  | [], _ => none
  | kv :: rest, s => if kv.1 = s then some kv.2 else stocksFind rest s

/-- The `CASE` in `UpsertStockBasic`'s `ON CONFLICT` update: replace the
stored name only when it is empty or equal to the stored symbol. -/
def mergeName (storedSymbol storedName newName : String) : String :=
  if storedName = "" ∨ storedName = storedSymbol then newName else storedName

/-- Apply the `ON CONFLICT ... DO UPDATE` to every row with the given
symbol (the primary key makes it at most one in a real table). -/
def updateRows : StocksTable → String → String → StocksTable
  | [], _, _ => []
  | kv :: rest, s, n =>
      (if kv.1 = s then
        (kv.1, { kv.2 with name := mergeName kv.1 kv.2.name n })
      else kv) :: updateRows rest s n

/-- `DB.UpsertStockBasic`: `INSERT INTO stocks (symbol, name, ...)
ON CONFLICT (symbol) DO UPDATE SET name = CASE WHEN stocks.name = '' OR
stocks.name = stocks.symbol THEN EXCLUDED.name ELSE stocks.name END`. -/
def upsertStockBasic (t : StocksTable) (symbol name : String) : StocksTable :=
  match stocksFind t symbol with
  | none => t ++ [(symbol, { name := name, sector := "", industry := "" })]
  | some _ => updateRows t symbol name

/-- The name chosen for an added symbol in `handleWatchlistUpdated`: the
name of the first entry of `stocks[]` whose upper-cased symbol matches,
else the (upper-cased) symbol itself. -/
def watchlistName (stocks : List WatchlistStock) (symbol : String) : String :=
  match stocks.find? (fun st => toUpperString st.symbol == symbol) with
  | some st => st.name
  | none => symbol

/-- The loop over `added_symbols` in `handleWatchlistUpdated`; `o` says
whether the i-th `UpsertStockBasic` call succeeds.  A failing call is
logged and the loop continues with the next symbol. -/
def updatedLoop (stocks : List WatchlistStock) (o : Nat → Bool) :
    List String → StocksTable → Nat → StocksTable
  | [], t, _ => t
  | sym :: rest, t, i =>
      let symbol := toUpperString sym
      let name := watchlistName stocks symbol
      if o i then updatedLoop stocks o rest (upsertStockBasic t symbol name) (i + 1)
      else updatedLoop stocks o rest t (i + 1)

/-- `WatchlistConsumer.handleWatchlistUpdated`: upsert every added
symbol; upsert errors are logged and skipped, and the handler always
returns success (`nil`). -/
def handleWatchlistUpdated (ev : WatchlistEvent) (t : StocksTable)
    (o : Nat → Bool) : StocksTable :=
  updatedLoop ev.data.stocks o ev.data.addedSymbols t 0

/-- `WatchlistConsumer.handleSymbolAdded`: upper-case the symbol, default
an empty name to it, and call `UpsertStockBasic` once; a store error is
returned to the caller. -/
def handleSymbolAdded (ev : WatchlistEvent) (t : StocksTable)
    (o : Nat → Bool) : StocksTable × Bool :=
  let symbol := toUpperString ev.data.symbol
  let name := if ev.data.name = "" then symbol else ev.data.name
  if o 0 then (upsertStockBasic t symbol name, true) else (t, false)

/-- `WatchlistConsumer.processMessage` after JSON decoding: dispatch on
`event_type`; symbol-removed events and unknown types only log. -/
def processWatchlistMessage (ev : WatchlistEvent) (t : StocksTable)
    (o : Nat → Bool) : StocksTable × Bool :=
  if ev.eventType = "WATCHLIST_UPDATED" then
    (handleWatchlistUpdated ev t o, true)
  else if ev.eventType = "WATCHLIST_SYMBOL_ADDED" then
    handleSymbolAdded ev t o
  else (t, true)

/-- An upsert oracle on which every store call succeeds. -/
def allOkUpsert : Nat → Bool := fun _ => true

/-- One message as seen by the watchlist consumer loop. -/
structure WatchlistMsg where
  event : WatchlistEvent
  oracle : Nat → Bool

/-- `WatchlistConsumer.Start`: like the positions loop, the offset of
every message returned by `ReadMessage` is queued for commit; processing
errors are logged and the loop moves on. -/
def watchlistConsumerStart (msgs : List WatchlistMsg)
    (table : StocksTable) : StocksTable × Nat :=
  msgs.foldl
    (fun acc m =>
      ((processWatchlistMessage m.event acc.1 m.oracle).1, acc.2 + 1))
    (table, 0)

/-- The symbols keying the stocks table. -/
def stocksKeys (t : StocksTable) : List String := t.map Prod.fst

/-- The upper-cased keys a watchlist event can introduce. -/
def watchlistEventUpperKeys (ev : WatchlistEvent) : List String :=
  if ev.eventType = "WATCHLIST_UPDATED" then
    ev.data.addedSymbols.map toUpperString
  else if ev.eventType = "WATCHLIST_SYMBOL_ADDED" then
    [toUpperString ev.data.symbol]
  else []

/-! ## Concrete sample inputs -/

/-- A raw position row with the fields the claims exercise. -/
def samplePD (s q p e pc : String) : PositionData :=
  { symbol := s, quantity := q, averageBuyPrice := p, equity := e,
    percentChange := pc, equityChange := "", updatedAt := "" }

/-- A snapshot envelope around the given raw positions. -/
def sampleSnapshot (ps : List PositionData) : PositionsEvent :=
  { eventType := "POSITIONS_SNAPSHOT", source := "robinhood",
    timestamp := "", data :=
      { positions := ps, buyingPower := "0", cash := "0", totalEquity := "0" } }

/-- The second snapshot of spec scenario S5. -/
def googSnapshot : PositionsEvent :=
  sampleSnapshot [samplePD "GOOG" "5" "2800" "14100" "0.7"]

/-- A snapshot listing the same symbol twice. -/
def dupSnapshot : PositionsEvent :=
  sampleSnapshot
    [samplePD "AAPL" "10" "150" "1600" "0",
     samplePD "AAPL" "10" "150" "1600" "0"]

/-- A snapshot whose position carries a lower-case symbol. -/
def lowercaseSnapshot : PositionsEvent :=
  sampleSnapshot [samplePD "aapl" "10" "150" "1600" "0"]

/-- A concrete stored row. -/
def samplePosition : Position :=
  { symbol := "AAPL", quantity := 10, entryPrice := 150, entryDate := 0,
    currentPrice := 160, unrealizedPnlPct := 0, daysHeld := 0 }

/-- An oracle whose transaction fails at commit. -/
def commitFailOracle : ReplaceOracle :=
  { allOkReplace with commitOk := false }

/-- An oracle whose transaction fails at begin. -/
def beginFailOracle : ReplaceOracle :=
  { allOkReplace with beginOk := false }

/-- Spec scenario S2 after JSON decoding: the consumer's event structs
have no sector or industry field, so those JSON keys are dropped. -/
def ccjEvent : WatchlistEvent :=
  { eventType := "WATCHLIST_SYMBOL_ADDED", source := "robinhood",
    timestamp := "", data :=
      { addedSymbols := [], removedSymbols := [], allSymbols := [],
        totalCount := 0, stocks := [], symbol := "ccj",
        name := "Cameco Corp" } }

/-- Spec scenario S1: a full watchlist update. -/
def s1Event : WatchlistEvent :=
  { eventType := "WATCHLIST_UPDATED", source := "robinhood",
    timestamp := "", data :=
      { addedSymbols := ["aapl", "Goog", "MSFT"], removedSymbols := [],
        allSymbols := [], totalCount := 3,
        stocks :=
          [{ symbol := "AAPL", name := "Apple Inc.", instrumentURL := "",
             addedAt := "" },
           { symbol := "GOOG", name := "Alphabet Inc.", instrumentURL := "",
             addedAt := "" }],
        symbol := "", name := "" } }

/-- An upsert oracle that fails exactly the first store call. -/
def failFirstUpsert : Nat → Bool := fun i => i != 0

/-- Folding `UpsertStockBasic` over a list of symbols whose upsert names
are a function `ν` of the (already upper-cased) symbol — the shape of
`handleWatchlistUpdated`'s loop when no store call fails. -/
def upsertFoldNu (ν : String → String) (t : StocksTable)
    (syms : List String) : StocksTable :=
  syms.foldl (fun tb s => upsertStockBasic tb s (ν s)) t

/-- Every row keyed `s` has a name the merge rule for `n` leaves alone. -/
def FixedFor (s n : String) (t : StocksTable) : Prop :=
  ∀ kv ∈ t, kv.1 = s → mergeName s kv.2.name n = kv.2.name

/-- The table has a row keyed `s`. -/
def PresentIn (s : String) (t : StocksTable) : Prop :=
  (stocksFind t s).isSome

/-! ## Helper lemmas: the replace-all transaction -/

theorem insertAll_eq_some {ok : Nat → Bool} :
    ∀ {ps : List Position} {i rows}, insertAll ok ps i = some rows → rows = ps := by
  intro ps
  induction ps with
  | nil => intro i rows h; simpa [insertAll] using h.symm
  | cons p ps ih =>
      intro i rows h
      by_cases hok : ok i
      · simp only [insertAll, hok, if_pos, Option.map_eq_some'] at h
        obtain ⟨rows', hrows', rfl⟩ := h
        exact congrArg (p :: ·) (ih hrows')
      · simp [insertAll, hok] at h

theorem replaceAllPositions_success {t ps o}
    (h : (replaceAllPositions t ps o).2 = true) :
    (replaceAllPositions t ps o).1 = ps := by
  unfold replaceAllPositions at *
  by_cases hb : o.beginOk
  · by_cases hd : o.deleteOk
    · simp only [hb, hd, Bool.not_true, Bool.false_eq_true, if_false] at *
      rcases hins : insertAll o.insertOk ps 0 with _ | rows
      · rw [hins] at h; simp at h
      · rw [hins] at h
        by_cases hc : o.commitOk
        · simpa [hc] using insertAll_eq_some hins
        · simp [hc] at h
    · simp [hb, hd] at h
  · simp [hb] at h

theorem replaceAllPositions_failure {t ps o}
    (h : (replaceAllPositions t ps o).2 = false) :
    (replaceAllPositions t ps o).1 = t := by
  unfold replaceAllPositions at *
  by_cases hb : o.beginOk
  · by_cases hd : o.deleteOk
    · simp only [hb, hd, Bool.not_true, Bool.false_eq_true, if_false] at *
      rcases hins : insertAll o.insertOk ps 0 with _ | rows
      · rfl
      · rw [hins] at h
        by_cases hc : o.commitOk
        · simp [hc] at h
        · simp [hc]
    · simp [hb, hd]
  · simp [hb]

theorem processPositionsMessage_fst_cases (ev : PositionsEvent) (now : Nat)
    (t : PositionsTable) (o : ReplaceOracle) :
    (processPositionsMessage ev now t o).1 = t ∨
      (processPositionsMessage ev now t o).1 =
        ev.data.positions.filterMap (fun pd => convertPositionData pd now) := by
  unfold processPositionsMessage
  by_cases hty : ev.eventType = "POSITIONS_SNAPSHOT"
  · simp only [hty, ne_eq, not_true_eq_false, if_false]
    rcases hs : (replaceAllPositions t
        (ev.data.positions.filterMap (fun pd => convertPositionData pd now)) o).2 with _ | _
    · exact Or.inl (replaceAllPositions_failure hs)
    · exact Or.inr (replaceAllPositions_success hs)
  · simp [hty]

theorem map_positionTuple_filterMap (pds : List PositionData) (now : Nat) :
    ((pds.filterMap (fun pd => convertPositionData pd now)).map positionTuple)
      = pds.filterMap (fun pd =>
          match decimalNewFromString pd.quantity,
                decimalNewFromString pd.averageBuyPrice with
          | some q, some p => some (pd.symbol, q, p)
          | _, _ => none) := by
  induction pds with
  | nil => rfl
  | cons pd rest ih =>
      rcases h1 : decimalNewFromString pd.quantity with _ | q
      · have hc : convertPositionData pd now = none := by
          simp [convertPositionData, h1]
        simp only [List.filterMap_cons, hc, h1]
        exact ih
      · rcases h2 : decimalNewFromString pd.averageBuyPrice with _ | p
        · have hc : convertPositionData pd now = none := by
            simp [convertPositionData, h1, h2]
          simp only [List.filterMap_cons, hc, h1, h2]
          exact ih
        · have hc : convertPositionData pd now = some
              { symbol := pd.symbol, quantity := q, entryPrice := p,
                entryDate := now,
                currentPrice :=
                  if q ≠ 0 then (decimalNewFromString pd.equity).getD 0 / q
                  else 0,
                unrealizedPnlPct := (decimalNewFromString pd.percentChange).getD 0,
                daysHeld := 0 } := by
            simp [convertPositionData, h1, h2]
          simp only [List.filterMap_cons, hc, h1, h2, List.map_cons, positionTuple]
          rw [ih]

theorem positionsConsumerStart_eq (msgs : List PositionsMsg) :
    ∀ t c, msgs.foldl
        (fun acc m =>
          ((processPositionsMessage m.event m.now acc.1 m.oracle).1, acc.2 + 1))
        (t, c)
      = (msgs.foldl
          (fun tb m => (processPositionsMessage m.event m.now tb m.oracle).1) t,
         c + msgs.length) := by
  induction msgs with
  | nil => intro t c; simp
  | cons m rest ih =>
      intro t c
      rw [List.foldl_cons, List.foldl_cons, ih]
      refine Prod.ext rfl ?_
      simp
      omega

theorem watchlistConsumerStart_eq (msgs : List WatchlistMsg) :
    ∀ t c, msgs.foldl
        (fun acc m =>
          ((processWatchlistMessage m.event acc.1 m.oracle).1, acc.2 + 1))
        (t, c)
      = (msgs.foldl
          (fun tb m => (processWatchlistMessage m.event tb m.oracle).1) t,
         c + msgs.length) := by
  induction msgs with
  | nil => intro t c; simp
  | cons m rest ih =>
      intro t c
      rw [List.foldl_cons, List.foldl_cons, ih]
      refine Prod.ext rfl ?_
      simp
      omega

/-! ## Helper lemmas: the stocks table and the placeholder merge rule -/

theorem mergeName_self (s n : String) : mergeName s n n = n := by
  unfold mergeName; split_ifs <;> rfl

theorem mergeName_merge (s x n : String) :
    mergeName s (mergeName s x n) n = mergeName s x n := by
  by_cases hx : x = "" ∨ x = s
  · simp only [mergeName, if_pos hx]
    split_ifs <;> rfl
  · simp [mergeName, hx]

theorem updateRows_eq_map (t : StocksTable) (s n : String) :
    updateRows t s n = t.map (fun kv =>
      if kv.1 = s then (kv.1, { kv.2 with name := mergeName kv.1 kv.2.name n })
      else kv) := by
  induction t with
  | nil => rfl
  | cons kv rest ih => simp [updateRows, ih]

theorem stocksFind_append (t u : StocksTable) (s : String) :
    stocksFind (t ++ u) s =
      match stocksFind t s with
      | some r => some r
      | none => stocksFind u s := by
  induction t with
  | nil => rfl
  | cons kv rest ih =>
      by_cases hk : kv.1 = s <;> simp [stocksFind, hk, ih]

theorem stocksFind_eq_none_iff (t : StocksTable) (s : String) :
    stocksFind t s = none ↔ ∀ kv ∈ t, kv.1 ≠ s := by
  induction t with
  | nil => simp [stocksFind]
  | cons kv rest ih =>
      by_cases hk : kv.1 = s <;> simp [stocksFind, hk, ih]

theorem stocksFind_updateRows (t : StocksTable) (s n s' : String) :
    stocksFind (updateRows t s n) s' =
      (stocksFind t s').map (fun r =>
        if s' = s then { r with name := mergeName s r.name n } else r) := by
  induction t with
  | nil => rfl
  | cons kv rest ih =>
      by_cases hks : kv.1 = s
      · by_cases hk : kv.1 = s'
        · simp [updateRows, stocksFind, hks, hk, hks ▸ hk.symm, ← hk, hks]
        · have hss : ¬s = s' := fun hcon => hk (hks.trans hcon)
          have hss' : ¬s' = s := fun hcon => hss hcon.symm
          simp [updateRows, stocksFind, hks, hk, hss, hss', ih]
      · by_cases hk : kv.1 = s'
        · have hne : ¬s' = s := fun h => hks (h ▸ hk)
          simp [updateRows, stocksFind, hks, hk, hne]
        · simp [updateRows, stocksFind, hks, hk, ih]

theorem stocksKeys_updateRows (t : StocksTable) (s n : String) :
    stocksKeys (updateRows t s n) = stocksKeys t := by
  rw [updateRows_eq_map]
  induction t with
  | nil => rfl
  | cons kv rest ih =>
      by_cases hk : kv.1 = s <;> simp [stocksKeys, hk] <;>
        simpa [stocksKeys] using ih

theorem presentIn_upsert_self (t : StocksTable) (s n : String) :
    PresentIn s (upsertStockBasic t s n) := by
  unfold upsertStockBasic
  rcases h : stocksFind t s with _ | r
  · simp [PresentIn, stocksFind_append, stocksFind, h]
  · simp [PresentIn, stocksFind_updateRows, h]

theorem fixedFor_upsert_self (t : StocksTable) (s n : String) :
    FixedFor s n (upsertStockBasic t s n) := by
  unfold upsertStockBasic
  rcases h : stocksFind t s with _ | r
  · intro kv hm hk
    rcases List.mem_append.1 hm with hm | hm
    · exact absurd hk ((stocksFind_eq_none_iff t s).1 h kv hm)
    · simp only [List.mem_singleton] at hm
      subst hm
      exact mergeName_self s n
  · intro kv hm hk
    rw [updateRows_eq_map] at hm
    obtain ⟨kv0, h0, rfl⟩ := List.mem_map.1 hm
    by_cases hc : kv0.1 = s
    · simpa [hc] using mergeName_merge s kv0.2.name n
    · simp only [if_neg hc] at hk
      exact absurd hk hc

theorem presentIn_upsert_mono {s : String} {t : StocksTable}
    (h : PresentIn s t) (s' n' : String) :
    PresentIn s (upsertStockBasic t s' n') := by
  unfold upsertStockBasic
  rcases hf : stocksFind t s' with _ | r
  · unfold PresentIn at h ⊢
    rw [stocksFind_append]
    rcases hs : stocksFind t s with _ | r'
    · rw [hs] at h; simp at h
    · simp
  · unfold PresentIn at h ⊢
    rw [stocksFind_updateRows]
    rcases hs : stocksFind t s with _ | r'
    · rw [hs] at h; simp at h
    · simp

theorem fixedFor_upsert_ne {s n : String} {t : StocksTable}
    (h : FixedFor s n t) {s' : String} (hne : s' ≠ s) (n' : String) :
    FixedFor s n (upsertStockBasic t s' n') := by
  unfold upsertStockBasic
  rcases hf : stocksFind t s' with _ | r
  · intro kv hm hk
    rcases List.mem_append.1 hm with hm | hm
    · exact h kv hm hk
    · simp only [List.mem_singleton] at hm
      subst hm
      exact absurd hk hne
  · intro kv hm hk
    rw [updateRows_eq_map] at hm
    obtain ⟨kv0, h0, rfl⟩ := List.mem_map.1 hm
    by_cases hc : kv0.1 = s'
    · simp only [if_pos hc] at hk
      exact absurd (hc.symm.trans hk) hne
    · simp only [if_neg hc] at hk ⊢
      exact h kv0 h0 hk

theorem upsert_fixed_id {s n : String} {t : StocksTable}
    (hp : PresentIn s t) (hf : FixedFor s n t) :
    upsertStockBasic t s n = t := by
  unfold upsertStockBasic
  rcases h : stocksFind t s with _ | r
  · simp [PresentIn, h] at hp
  · rw [updateRows_eq_map]
    have hrow : ∀ kv ∈ t,
        (if kv.1 = s then
          (kv.1, { kv.2 with name := mergeName kv.1 kv.2.name n })
        else kv) = kv := by
      intro kv hm
      by_cases hc : kv.1 = s
      · have hname := hf kv hm hc
        obtain ⟨k, r0⟩ := kv
        obtain ⟨nm, sec, ind⟩ := r0
        simp only at hc
        subst hc
        simp only [if_pos rfl]
        simp only at hname
        simp [hname]
      · simp [hc]
    rw [List.map_congr_left hrow]
    simp

theorem upsertFoldNu_preserves {ν : String → String} {s : String} :
    ∀ (syms : List String) (t : StocksTable),
      PresentIn s t → FixedFor s (ν s) t →
      PresentIn s (upsertFoldNu ν t syms) ∧
        FixedFor s (ν s) (upsertFoldNu ν t syms) := by
  intro syms
  induction syms with
  | nil => intro t hp hfx; exact ⟨hp, hfx⟩
  | cons a rest ih =>
      intro t hp hfx
      by_cases ha : a = s
      · subst ha
        exact ih _ (presentIn_upsert_self t a (ν a)) (fixedFor_upsert_self t a (ν a))
      · exact ih _ (presentIn_upsert_mono hp a (ν a)) (fixedFor_upsert_ne hfx ha (ν a))

theorem upsertFoldNu_establishes {ν : String → String} :
    ∀ (syms : List String) (t : StocksTable) (s : String), s ∈ syms →
      PresentIn s (upsertFoldNu ν t syms) ∧
        FixedFor s (ν s) (upsertFoldNu ν t syms) := by
  intro syms
  induction syms with
  | nil => intro t s h; cases h
  | cons a rest ih =>
      intro t s hs
      rcases List.mem_cons.1 hs with rfl | hs
      · exact upsertFoldNu_preserves rest _
          (presentIn_upsert_self t s (ν s)) (fixedFor_upsert_self t s (ν s))
      · exact ih _ s hs

theorem upsertFoldNu_id {ν : String → String} :
    ∀ (syms : List String) (t : StocksTable),
      (∀ s ∈ syms, PresentIn s t ∧ FixedFor s (ν s) t) →
      upsertFoldNu ν t syms = t := by
  intro syms
  induction syms with
  | nil => intro t _; rfl
  | cons a rest ih =>
      intro t h
      have ha := h a (List.mem_cons_self a rest)
      show upsertFoldNu ν (upsertStockBasic t a (ν a)) rest = t
      rw [upsert_fixed_id ha.1 ha.2]
      exact ih t (fun s hs => h s (List.mem_cons_of_mem a hs))

theorem upsertFoldNu_idem (ν : String → String) (syms : List String)
    (t : StocksTable) :
    upsertFoldNu ν (upsertFoldNu ν t syms) syms = upsertFoldNu ν t syms :=
  upsertFoldNu_id syms _ (fun s hs => upsertFoldNu_establishes syms t s hs)

theorem updatedLoop_allOk (stocks : List WatchlistStock) :
    ∀ (syms : List String) (t : StocksTable) (i : Nat),
      updatedLoop stocks allOkUpsert syms t i =
        upsertFoldNu (watchlistName stocks) t (syms.map toUpperString) := by
  intro syms
  induction syms with
  | nil => intro t i; rfl
  | cons sym rest ih =>
      intro t i
      show updatedLoop stocks allOkUpsert (sym :: rest) t i =
        upsertFoldNu (watchlistName stocks)
          (upsertStockBasic t (toUpperString sym) (watchlistName stocks (toUpperString sym)))
          (rest.map toUpperString)
      rw [← ih _ (i + 1)]
      simp [updatedLoop, allOkUpsert]

theorem stocksKeys_upsert (t : StocksTable) (s n : String) :
    stocksKeys (upsertStockBasic t s n) = stocksKeys t ∨
      stocksKeys (upsertStockBasic t s n) = stocksKeys t ++ [s] := by
  unfold upsertStockBasic
  rcases h : stocksFind t s with _ | r
  · right; simp [stocksKeys]
  · left; exact stocksKeys_updateRows t s n

theorem mem_stocksKeys_updatedLoop (stocks : List WatchlistStock)
    (o : Nat → Bool) :
    ∀ (syms : List String) (t : StocksTable) (i : Nat) (k : String),
      k ∈ stocksKeys (updatedLoop stocks o syms t i) →
      k ∈ stocksKeys t ∨ k ∈ syms.map toUpperString := by
  intro syms
  induction syms with
  | nil => intro t i k hk; exact Or.inl hk
  | cons sym rest ih =>
      intro t i k hk
      by_cases ho : o i
      · rw [show updatedLoop stocks o (sym :: rest) t i =
            updatedLoop stocks o rest
              (upsertStockBasic t (toUpperString sym)
                (watchlistName stocks (toUpperString sym))) (i + 1) from by
              simp [updatedLoop, ho]] at hk
        rcases ih _ (i + 1) k hk with hk' | hk'
        · rcases stocksKeys_upsert t (toUpperString sym)
              (watchlistName stocks (toUpperString sym)) with he | he
          · rw [he] at hk'
            exact Or.inl hk'
          · rw [he] at hk'
            rcases List.mem_append.1 hk' with hk'' | hk''
            · exact Or.inl hk''
            · simp only [List.mem_singleton] at hk''
              exact Or.inr (by simp [hk''])
        · exact Or.inr (by simp [List.mem_map] at hk' ⊢; tauto)
      · rw [show updatedLoop stocks o (sym :: rest) t i =
            updatedLoop stocks o rest t (i + 1) from by
              simp [updatedLoop, ho]] at hk
        rcases ih _ (i + 1) k hk with hk' | hk'
        · exact Or.inl hk'
        · exact Or.inr (by simp [List.mem_map] at hk' ⊢; tauto)

theorem positionsFold_nodup :
    ∀ (msgs : List PositionsMsg) (t : PositionsTable),
      ((t.map Position.symbol).Nodup) →
      (∀ m ∈ msgs,
        (((m.event.data.positions.filterMap
            (fun pd => convertPositionData pd m.now)).map Position.symbol).Nodup)) →
      (((msgs.foldl
          (fun tb m => (processPositionsMessage m.event m.now tb m.oracle).1)
          t).map Position.symbol).Nodup) := by
  intro msgs
  induction msgs with
  | nil => intro t ht _; exact ht
  | cons m rest ih =>
      intro t ht h
      rw [List.foldl_cons]
      refine ih _ ?_ (fun m' hm' => h m' (List.mem_cons_of_mem m hm'))
      rcases processPositionsMessage_fst_cases m.event m.now t m.oracle with
        he | he
      · rw [he]; exact ht
      · rw [he]; exact h m (List.mem_cons_self m rest)

/-! ## Claims -/

/-- C1: for every POSITIONS_SNAPSHOT message whose ReplaceAllPositions
call succeeds, the positions table afterwards contains exactly the
(symbol, quantity, entry_price) tuples successfully parsed from the
message's positions[] — rows whose quantity or average_buy_price fail to
parse are excluded — and nothing else. -/
theorem positions_snapshot_replaces_table (ev : PositionsEvent) (now : Nat)
    (t : PositionsTable) (o : ReplaceOracle)
    (hty : ev.eventType = "POSITIONS_SNAPSHOT")
    (hs : (processPositionsMessage ev now t o).2 = true) :
    (processPositionsMessage ev now t o).1.map positionTuple
      = parsedTuples ev := by
  have hfst : (processPositionsMessage ev now t o).1
      = ev.data.positions.filterMap (fun pd => convertPositionData pd now) := by
    unfold processPositionsMessage at hs ⊢
    simp only [hty, ne_eq, not_true_eq_false, if_false] at hs ⊢
    exact replaceAllPositions_success hs
  rw [hfst, map_positionTuple_filterMap]
  rfl

unseal Rat.mul Rat.inv in
/-- Witness for C1 at spec scenario S5's second snapshot. -/
theorem positions_snapshot_replaces_table_witness :
    googSnapshot.eventType = "POSITIONS_SNAPSHOT" ∧
    (processPositionsMessage googSnapshot 7 [] allOkReplace).2 = true ∧
    (processPositionsMessage googSnapshot 7 [] allOkReplace).1.map positionTuple
      = parsedTuples googSnapshot :=
  ⟨rfl, by decide,
    positions_snapshot_replaces_table googSnapshot 7 [] allOkReplace rfl
      (by decide)⟩

/-- C2: ReplaceAllPositions is atomic — for every input list and every
starting table state, if the operation fails the positions table is left
exactly as it was before the call. -/
theorem replaceAllPositions_atomic (t : PositionsTable)
    (ps : List Position) (o : ReplaceOracle)
    (h : (replaceAllPositions t ps o).2 = false) :
    (replaceAllPositions t ps o).1 = t :=
  replaceAllPositions_failure h

/-- Witness for C2: a replace that fails at commit leaves the table. -/
theorem replaceAllPositions_atomic_witness :
    (replaceAllPositions [samplePosition] [] commitFailOracle).2 = false ∧
    (replaceAllPositions [samplePosition] [] commitFailOracle).1
      = [samplePosition] :=
  ⟨by decide,
    replaceAllPositions_atomic [samplePosition] [] commitFailOracle (by decide)⟩

/-- C3: UpsertStockBasic inserts when the symbol is absent; when present
it updates the name only if the existing name is empty or equal to the
symbol, else leaves it; upserting AAPL/AAPL then AAPL/"Apple Inc." stores
"Apple Inc.", and so does the reverse order. -/
theorem upsertStockBasic_placeholder_protection :
    (∀ (t : StocksTable) (s n : String), stocksFind t s = none →
      stocksFind (upsertStockBasic t s n) s
        = some { name := n, sector := "", industry := "" })
  ∧ (∀ (t : StocksTable) (s n : String) (r : StockRow),
      stocksFind t s = some r → (r.name = "" ∨ r.name = s) →
      stocksFind (upsertStockBasic t s n) s = some { r with name := n })
  ∧ (∀ (t : StocksTable) (s n : String) (r : StockRow),
      stocksFind t s = some r → r.name ≠ "" → r.name ≠ s →
      stocksFind (upsertStockBasic t s n) s = some r)
  ∧ stocksFind (upsertStockBasic (upsertStockBasic [] "AAPL" "AAPL")
        "AAPL" "Apple Inc.") "AAPL"
      = some { name := "Apple Inc.", sector := "", industry := "" }
  ∧ stocksFind (upsertStockBasic (upsertStockBasic [] "AAPL" "Apple Inc.")
        "AAPL" "AAPL") "AAPL"
      = some { name := "Apple Inc.", sector := "", industry := "" } := by
  refine ⟨?_, ?_, ?_, by decide, by decide⟩
  · intro t s n h
    unfold upsertStockBasic
    rw [h, stocksFind_append, h]
    simp [stocksFind]
  · intro t s n r h hr
    unfold upsertStockBasic
    rw [h, stocksFind_updateRows, h]
    simp [mergeName, hr]
  · intro t s n r h h1 h2
    unfold upsertStockBasic
    rw [h, stocksFind_updateRows, h]
    simp [mergeName, h1, h2]

/-- Witness for C3: insert-when-absent at a concrete table. -/
theorem upsertStockBasic_placeholder_protection_witness :
    stocksFind [] "X" = none ∧
    stocksFind (upsertStockBasic [] "X" "N") "X"
      = some { name := "N", sector := "", industry := "" } :=
  ⟨rfl, upsertStockBasic_placeholder_protection.1 [] "X" "N" rfl⟩

/-- C4 (code evaluated at the failing input): on the spec's S2 event —
WATCHLIST_SYMBOL_ADDED for "ccj" with sector "Energy" and industry
"Uranium" in the JSON — the consumer stores the row through
UpsertStockBasic with empty sector and industry: the event structs carry
no sector/industry field and the repository interface has no
UpsertStockWithSector, so the enrichment the spec (and the repository's
own tests) expect never happens. -/
theorem handleSymbolAdded_ccj_stores_no_sector :
    processWatchlistMessage ccjEvent [] allOkUpsert
      = ([("CCJ", { name := "Cameco Corp", sector := "", industry := "" })],
         true) := by
  decide

unseal Rat.mul Rat.inv in
/-- C5 counterexample: a successful snapshot whose positions[] lists
"AAPL" twice leaves two rows keyed "AAPL" in the positions table —
nothing dedupes and no constraint forbids it. -/
theorem positions_duplicate_symbol_rows :
    (processPositionsMessage dupSnapshot 0 [] allOkReplace).2 = true ∧
    (processPositionsMessage dupSnapshot 0 [] allOkReplace).1.map
        Position.symbol = ["AAPL", "AAPL"] ∧
    ¬((processPositionsMessage dupSnapshot 0 [] allOkReplace).1.map
        Position.symbol).Nodup :=
  ⟨by decide, by decide, by decide⟩

/-- C5 (amended): starting from an empty table, after any sequence of
messages in which every snapshot's successfully converted positions have
pairwise-distinct symbols, the positions table has at most one row per
symbol. -/
theorem positions_at_most_one_row_per_symbol (msgs : List PositionsMsg)
    (h : ∀ m ∈ msgs,
      (((m.event.data.positions.filterMap
          (fun pd => convertPositionData pd m.now)).map Position.symbol).Nodup)) :
    (((positionsConsumerStart msgs []).1.map Position.symbol).Nodup) := by
  unfold positionsConsumerStart
  rw [positionsConsumerStart_eq]
  exact positionsFold_nodup msgs [] (by simp) h

unseal Rat.mul Rat.inv in
/-- Witness for the amended C5 at a concrete snapshot sequence. -/
theorem positions_at_most_one_row_per_symbol_witness :
    (∀ m ∈ [({ event := googSnapshot, now := 0,
               oracle := allOkReplace } : PositionsMsg)],
      (((m.event.data.positions.filterMap
          (fun pd => convertPositionData pd m.now)).map Position.symbol).Nodup)) ∧
    (((positionsConsumerStart
        [{ event := googSnapshot, now := 0, oracle := allOkReplace }]
        []).1.map Position.symbol).Nodup) :=
  ⟨by decide, positions_at_most_one_row_per_symbol _ (by decide)⟩

unseal Rat.mul Rat.inv in
/-- C6 counterexample: a positions snapshot carrying the lower-case
symbol "aapl" stores the row keyed "aapl" — `convertPositionData` copies
`pd.Symbol` without upper-casing it. -/
theorem positions_symbol_kept_lowercase :
    (processPositionsMessage lowercaseSnapshot 0 [] allOkReplace).2 = true ∧
    (processPositionsMessage lowercaseSnapshot 0 [] allOkReplace).1.map
        Position.symbol = ["aapl"] ∧
    ("aapl" : String) ≠ "AAPL" :=
  ⟨by decide, by decide, by decide⟩

/-- C6 (amended): for every watchlist event, every key of the stocks
table after processing is either a pre-existing key or the upper-cased
form of a symbol the event carries; watchlist rows are always stored
upper-cased (positions rows keep the symbol as received). -/
theorem watchlist_rows_upper_cased (ev : WatchlistEvent) (t : StocksTable)
    (o : Nat → Bool) (k : String)
    (hk : k ∈ stocksKeys (processWatchlistMessage ev t o).1) :
    k ∈ stocksKeys t ∨ k ∈ watchlistEventUpperKeys ev := by
  unfold processWatchlistMessage at hk
  unfold watchlistEventUpperKeys
  by_cases h1 : ev.eventType = "WATCHLIST_UPDATED"
  · rw [if_pos h1] at hk
    rw [if_pos h1]
    exact mem_stocksKeys_updatedLoop ev.data.stocks o ev.data.addedSymbols
      t 0 k hk
  · rw [if_neg h1] at hk
    rw [if_neg h1]
    by_cases h2 : ev.eventType = "WATCHLIST_SYMBOL_ADDED"
    · rw [if_pos h2] at hk
      rw [if_pos h2]
      by_cases ho : o 0
      · simp only [handleSymbolAdded, ho, if_pos] at hk
        rcases stocksKeys_upsert t (toUpperString ev.data.symbol)
            (if ev.data.name = "" then toUpperString ev.data.symbol
             else ev.data.name) with he | he
        · rw [he] at hk
          exact Or.inl hk
        · rw [he] at hk
          rcases List.mem_append.1 hk with hk' | hk'
          · exact Or.inl hk'
          · simp only [List.mem_singleton] at hk'
            exact Or.inr (by simp [hk'])
      · simp only [handleSymbolAdded, ho, Bool.false_eq_true, if_false] at hk
        exact Or.inl hk
    · rw [if_neg h2] at hk
      exact Or.inl hk

/-- Witness for the amended C6 at the S2 event. -/
theorem watchlist_rows_upper_cased_witness :
    "CCJ" ∈ stocksKeys (processWatchlistMessage ccjEvent [] allOkUpsert).1 ∧
    ("CCJ" ∈ stocksKeys ([] : StocksTable) ∨
      "CCJ" ∈ watchlistEventUpperKeys ccjEvent) :=
  ⟨by decide, watchlist_rows_upper_cased ccjEvent [] allOkUpsert "CCJ" (by decide)⟩

unseal Rat.mul Rat.inv in
/-- C7 counterexample: a snapshot whose transaction fails at commit is
still read and its offset committed (the run count is 1, not 0), the
table is left unapplied, and the consumer never retries the message. -/
theorem offset_advances_past_failed_store :
    (positionsConsumerStart
        [{ event := googSnapshot, now := 0, oracle := commitFailOracle }]
        []).2 = 1 ∧
    (positionsConsumerStart
        [{ event := googSnapshot, now := 0, oracle := commitFailOracle }]
        []).1 = [] ∧
    (processPositionsMessage googSnapshot 0 [] commitFailOracle).2 = false ∧
    parsedTuples googSnapshot ≠ [] :=
  ⟨by decide, by decide, by decide, by decide⟩

/-- C7 (amended): both consumer loops commit the offset of every message
they read, whether or not its store write succeeded — a processing error
is logged and the loop continues, so a failed message is passed over, not
redelivered. -/
theorem consumers_commit_every_offset :
    (∀ (msgs : List PositionsMsg) (t : PositionsTable),
      (positionsConsumerStart msgs t).2 = msgs.length) ∧
    (∀ (msgs : List WatchlistMsg) (t : StocksTable),
      (watchlistConsumerStart msgs t).2 = msgs.length) := by
  constructor
  · intro msgs t
    unfold positionsConsumerStart
    rw [positionsConsumerStart_eq]
    exact Nat.zero_add _
  · intro msgs t
    unfold watchlistConsumerStart
    rw [watchlistConsumerStart_eq]
    exact Nat.zero_add _

/-- C8: error disposition is asymmetric — a WATCHLIST_UPDATED batch
always returns success and a failing upsert only skips its own symbol,
while a WATCHLIST_SYMBOL_ADDED event propagates the upsert error and
leaves the table unchanged. -/
theorem watchlist_error_disposition :
    (∀ (ev : WatchlistEvent) (t : StocksTable) (o : Nat → Bool),
      ev.eventType = "WATCHLIST_UPDATED" →
      (processWatchlistMessage ev t o).2 = true)
  ∧ (∀ (ev : WatchlistEvent) (t : StocksTable) (o : Nat → Bool),
      ev.eventType = "WATCHLIST_SYMBOL_ADDED" → o 0 = false →
      (processWatchlistMessage ev t o).2 = false ∧
        (processWatchlistMessage ev t o).1 = t)
  ∧ (∀ (stocks : List WatchlistStock) (o : Nat → Bool) (t : StocksTable)
      (sym : String) (rest : List String) (i : Nat), o i = false →
      updatedLoop stocks o (sym :: rest) t i = updatedLoop stocks o rest t (i + 1)) := by
  refine ⟨?_, ?_, ?_⟩
  · intro ev t o h
    simp [processWatchlistMessage, h]
  · intro ev t o h ho
    have hne : ev.eventType ≠ "WATCHLIST_UPDATED" := by rw [h]; decide
    constructor <;> simp [processWatchlistMessage, hne, h, handleSymbolAdded, ho]
  · intro stocks o t sym rest i ho
    simp [updatedLoop, ho]

/-- Witness for C8 at concrete events and failing oracles. -/
theorem watchlist_error_disposition_witness :
    s1Event.eventType = "WATCHLIST_UPDATED" ∧
    (processWatchlistMessage s1Event [] failFirstUpsert).2 = true ∧
    ((processWatchlistMessage ccjEvent [] (fun _ => false)).2 = false ∧
      (processWatchlistMessage ccjEvent [] (fun _ => false)).1 = []) ∧
    updatedLoop [] (fun _ => false) ["FAIL"] [] 0
      = updatedLoop [] (fun _ => false) [] [] 1 :=
  ⟨rfl,
   watchlist_error_disposition.1 s1Event [] failFirstUpsert rfl,
   watchlist_error_disposition.2.1 ccjEvent [] (fun _ => false) rfl rfl,
   watchlist_error_disposition.2.2 [] (fun _ => false) [] "FAIL" [] 0 rfl⟩

/-- C9: the conversion policy — a parse failure on quantity or
average_buy_price skips the whole position; equity and percent_change
fall back to zero; current_price is equity/quantity for nonzero quantity
and zero otherwise, and a zero-quantity row is still produced. -/
theorem convertPositionData_parsing_policy (pd : PositionData) (now : Nat) :
    ((decimalNewFromString pd.quantity = none ∨
        decimalNewFromString pd.averageBuyPrice = none) →
      convertPositionData pd now = none)
  ∧ (∀ q p, decimalNewFromString pd.quantity = some q →
      decimalNewFromString pd.averageBuyPrice = some p →
      convertPositionData pd now = some
        { symbol := pd.symbol, quantity := q, entryPrice := p,
          entryDate := now,
          currentPrice :=
            if q ≠ 0 then (decimalNewFromString pd.equity).getD 0 / q else 0,
          unrealizedPnlPct := (decimalNewFromString pd.percentChange).getD 0,
          daysHeld := 0 }
      ∧ (q = 0 → ∃ pos, convertPositionData pd now = some pos ∧
          pos.currentPrice = 0)) := by
  constructor
  · intro h
    rcases hq : decimalNewFromString pd.quantity with _ | q
    · simp [convertPositionData, hq]
    · rcases h with h | h
      · exact absurd (hq.symm.trans h) (by simp)
      · simp [convertPositionData, hq, h]
  · intro q p hq hp
    have he : convertPositionData pd now = some
        { symbol := pd.symbol, quantity := q, entryPrice := p,
          entryDate := now,
          currentPrice :=
            if q ≠ 0 then (decimalNewFromString pd.equity).getD 0 / q else 0,
          unrealizedPnlPct := (decimalNewFromString pd.percentChange).getD 0,
          daysHeld := 0 } := by
      simp [convertPositionData, hq, hp]
    exact ⟨he, fun hq0 => ⟨_, he, by simp [hq0]⟩⟩

unseal Rat.mul Rat.inv in
/-- Witness for C9: a bad quantity skips the row; a zero-quantity row is
produced with current_price 0. -/
theorem convertPositionData_parsing_policy_witness :
    (decimalNewFromString "bogus" = none ∨ decimalNewFromString "1" = none) ∧
    convertPositionData (samplePD "BAD" "bogus" "1" "1" "0") 0 = none ∧
    (∃ pos, convertPositionData (samplePD "Z" "0" "10" "100" "0") 0
        = some pos ∧ pos.currentPrice = 0) :=
  ⟨Or.inl (by decide),
   (convertPositionData_parsing_policy (samplePD "BAD" "bogus" "1" "1" "0") 0).1
     (Or.inl (by decide)),
   ((convertPositionData_parsing_policy (samplePD "Z" "0" "10" "100" "0") 0).2
     0 10 (by decide) (by decide)).2 rfl⟩

/-- C10: handling the same WATCHLIST_UPDATED event twice (with the store
available) leaves the stocks table exactly as handling it once — the
second application changes no symbol, name, sector or industry value
(last_updated is outside the model). -/
theorem handleWatchlistUpdated_idempotent (ev : WatchlistEvent)
    (t : StocksTable) :
    handleWatchlistUpdated ev (handleWatchlistUpdated ev t allOkUpsert)
        allOkUpsert
      = handleWatchlistUpdated ev t allOkUpsert := by
  unfold handleWatchlistUpdated
  simp only [updatedLoop_allOk]
  exact upsertFoldNu_idem _ _ _

end StockService
